import Mathlib

/-!
Shallow embedding of the pmm_agent chat service (apps/agent/src/pmm_agent):
the session store and message truncation, the streaming chat generator with
its tool-call deduplication, the observability logger with its clarification
protocol auditor and session metrics, and the positioning readiness scoring
tool.  Definitions are translated from the Python source; theorems settle the
specified behavioural claims.  The wall clock is abstracted: timestamps are
supplied as explicit parameters or fixed to 0 where no claim depends on them.
-/

namespace PmmAgent

/-! ## Python string primitives

Python string operations used by the source, embedded over `List Char` /
`String`.  `pySplit` is `str.split` with a one-character separator,
`pyStrip` is `str.strip` (ASCII whitespace), `pyContains` is the
`c in s` substring test for a single character. -/

/-- Python `str.split(sep)` for a single-character separator, on char lists. -/
def splitOnChar (sep : Char) : List Char → List (List Char)
  | [] => [[]]
  | c :: rest =>
    let r := splitOnChar sep rest
    if c = sep then [] :: r
    else
      match r with
      | [] => [[c]]
      | g :: gs => (c :: g) :: gs

/-- Python `str.split(sep)` for a single-character separator. -/
def pySplit (s : String) (sep : Char) : List String :=
  (splitOnChar sep s.toList).map (fun cs => String.mk cs)

/-- Characters removed by Python `str.strip()` (ASCII whitespace). -/
def pyIsSpace (c : Char) : Bool :=
  c = ' ' || c = '\t' || c = '\n' || c = '\x0d' || c = '\x0b' || c = '\x0c'

/-- Python `str.strip()`. -/
def pyStrip (s : String) : String :=
  String.mk (((s.toList.dropWhile pyIsSpace).reverse.dropWhile pyIsSpace).reverse)

/-- Python `c in s` for a single character `c`. -/
def pyContains (s : String) (c : Char) : Bool :=
  s.toList.contains c

/-! ## JSON canonicalization of tool arguments

Tool arguments are modelled as flat JSON objects with string values
(`List (String × String)`).  `jsonDumpsSorted` embeds
`json.dumps(args, sort_keys=True)`. -/

/-- Tool arguments: a flat JSON object with string values. -/
abbrev Args := List (String × String)

/-- Insert an entry into a key-sorted association list (stable). -/
def insertByKey (p : String × String) : Args → Args
  | [] => [p]
  | q :: rest => if p.1 ≤ q.1 then p :: q :: rest else q :: insertByKey p rest

/-- Sort entries by key, as Python `sort_keys=True` does. -/
def sortByKey : Args → Args
  | [] => []
  | p :: rest => insertByKey p (sortByKey rest)

/-- Serialization of a flat JSON object with the default `json.dumps`
separators (string escaping is not modelled). -/
def jsonDumps (args : Args) : String :=
  "\x7b" ++ String.intercalate ", "
    (args.map (fun p => "\"" ++ p.1 ++ "\": \"" ++ p.2 ++ "\"")) ++ "\x7d"

/-- `json.dumps(args, sort_keys=True)`. -/
def jsonDumpsSorted (args : Args) : String :=
  jsonDumps (sortByKey args)

/-- Embeds `get_tool_call_key` (server.py): the composite deduplication key
of a tool call, the tool name and the canonicalized arguments joined by a
colon. -/
def get_tool_call_key (tool_name : String) (tool_args : Args) : String :=
  tool_name ++ ":" ++ jsonDumpsSorted tool_args

/-! ## Positioning readiness scoring (tools/scoring.py) -/

/-- Structured readiness assessment output (`ReadinessScore`). -/
structure ReadinessScore where
  score : Nat
  strengths : List String
  gaps : List String
  next_action : String
  deriving DecidableEq, Repr

/-- Embeds `calculate_positioning_readiness` (tools/scoring.py). -/
def calculate_positioning_readiness
    (has_target_customer has_competitive_alternative has_key_differentiator
     has_customer_proof has_clear_category : Bool) : ReadinessScore :=
  let checks : List (String × Bool) := [
    ("Target Customer Definition", has_target_customer),
    ("Competitive Alternative Identified", has_competitive_alternative),
    ("Key Differentiator Articulated", has_key_differentiator),
    ("Customer Proof Available", has_customer_proof),
    ("Market Category Defined", has_clear_category)]
  let strengths := (checks.filter (fun p => p.2)).map Prod.fst
  let gaps := (checks.filter (fun p => !p.2)).map Prod.fst
  let score := strengths.length * 2
  let next_action :=
    if !has_target_customer then "Define your target customer segment first"
    else if !has_competitive_alternative then "Identify what customers use before finding you"
    else if !has_key_differentiator then "Articulate what you have that alternatives don\x27t"
    else if !has_customer_proof then "Collect customer testimonials and use cases"
    else if !has_clear_category then "Define your market category"
    else "You\x27re ready to create positioning!"
  { score := score, strengths := strengths, gaps := gaps, next_action := next_action }

/-- The five readiness check labels, in the fixed order of the source. -/
def readinessCheckLabels : List String :=
  ["Target Customer Definition", "Competitive Alternative Identified",
   "Key Differentiator Articulated", "Customer Proof Available",
   "Market Category Defined"]

/-! ## Observability (observability.py) -/

/-- Record of a tool call (`ToolCallEvent`). -/
structure ToolCallEvent where
  tool_name : String
  args : Args
  timestamp : ℚ
  session_id : String
  message_id : Option String := none
  duration_ms : Option ℚ := none
  result : Option String := none
  error : Option String := none
  deriving DecidableEq, Repr

/-- Record of an agent response (`AgentResponseEvent`). -/
structure AgentResponseEvent where
  session_id : String
  message_id : String
  user_message : String
  agent_response : String
  timestamp : ℚ
  tool_calls : List ToolCallEvent
  response_time_ms : ℚ
  token_count : Option Nat := none
  followed_clarification_protocol : Option Bool := none
  clarification_question : Option String := none
  deriving DecidableEq, Repr

/-- Metrics for a conversation session (`SessionMetrics`). -/
structure SessionMetrics where
  session_id : String
  start_time : ℚ
  message_count : Nat
  tool_call_count : Nat
  total_response_time_ms : ℚ
  tools_used : List String
  errors : List String
  deriving DecidableEq, Repr

/-- The in-memory state of `AgentLogger`: the event log and the per-session
metrics map (an insertion-ordered dictionary, modelled as an association
list). -/
structure AgentLogger where
  events : List AgentResponseEvent
  sessions : List (String × SessionMetrics)
  deriving DecidableEq, Repr

/-- A fresh `AgentLogger`: empty event storage. -/
def initialLogger : AgentLogger := { events := [], sessions := [] }

/-- Dictionary lookup in the sessions map. -/
def lookupSession (sessions : List (String × SessionMetrics)) (sid : String) :
    Option SessionMetrics :=
  match sessions with
  | [] => none
  | p :: rest => if p.1 = sid then some p.2 else lookupSession rest sid

/-- In-place update of the entry with the given key (first match). -/
def updateSession (sessions : List (String × SessionMetrics)) (sid : String)
    (f : SessionMetrics → SessionMetrics) : List (String × SessionMetrics) :=
  match sessions with
  | [] => []
  | p :: rest =>
    if p.1 = sid then (p.1, f p.2) :: rest else p :: updateSession rest sid f

/-- Embeds `AgentLogger.log_tool_call`: builds and returns a `ToolCallEvent`;
it does not touch the logger state (console logging only).  The wall-clock
timestamp is abstracted to 0. -/
def log_tool_call (tool_name : String) (args : Args) (session_id : String)
    (message_id : Option String) : ToolCallEvent :=
  { tool_name := tool_name, args := args, timestamp := 0,
    session_id := session_id, message_id := message_id }

/-- Embeds `AgentLogger._analyze_clarification_protocol`. -/
def _analyze_clarification_protocol (user_message agent_response : String)
    (tool_calls : List ToolCallEvent) (is_first_message : Bool) :
    Option Bool × Option String :=
  if !is_first_message then (none, none)
  else if tool_calls.length > 0 then
    let has_question := pyContains agent_response '?'
    if has_question then
      let lines := pySplit agent_response '\n'
      let questions := lines.filter (fun line => pyContains line '?')
      (some false, questions.head?)
    else (some false, none)
  else
    let has_question := pyContains agent_response '?'
    if has_question then
      let lines := pySplit agent_response '\n'
      let questions := lines.filter
        (fun line => pyContains line '?' && decide ((pyStrip line).length > 10))
      (some true, questions.head?)
    else (none, none)

/-- Embeds `AgentLogger.log_response`: appends the response event and updates
the owning session metrics (creating them if absent).  `now` stands for
`time.time()`.  Returns the new logger state and the created event. -/
def log_response (L : AgentLogger) (session_id message_id user_message
    agent_response : String) (tool_calls : List ToolCallEvent)
    (response_time_ms : ℚ) (token_count : Option Nat)
    (is_first_message : Bool) (now : ℚ) : AgentLogger × AgentResponseEvent :=
  let analysis := _analyze_clarification_protocol user_message agent_response
      tool_calls is_first_message
  let event : AgentResponseEvent :=
    { session_id := session_id, message_id := message_id,
      user_message := user_message, agent_response := agent_response,
      timestamp := now, tool_calls := tool_calls,
      response_time_ms := response_time_ms, token_count := token_count,
      followed_clarification_protocol := analysis.1,
      clarification_question := analysis.2 }
  let events := L.events ++ [event]
  let sessions0 :=
    match lookupSession L.sessions session_id with
    | none => L.sessions ++ [(session_id,
        { session_id := session_id, start_time := now, message_count := 0,
          tool_call_count := 0, total_response_time_ms := 0,
          tools_used := [], errors := [] })]
    | some _ => L.sessions
  let sessions := updateSession sessions0 session_id (fun s =>
    { s with message_count := s.message_count + 1,
             tool_call_count := s.tool_call_count + tool_calls.length,
             total_response_time_ms := s.total_response_time_ms + response_time_ms,
             tools_used := s.tools_used ++ tool_calls.map (fun tc => tc.tool_name) })
  ({ events := events, sessions := sessions }, event)

/-- The dictionary returned by `AgentLogger.get_session_summary`. -/
structure SessionSummary where
  session_id : String
  message_count : Nat
  tool_call_count : Nat
  total_response_time_ms : ℚ
  avg_response_time_ms : ℚ
  tools_used : List String
  protocol_violations : Nat
  errors : List String
  deriving DecidableEq, Repr

/-- Embeds `AgentLogger.get_session_summary` (a pure read of the logger
state; `list(set(...))` is modelled as deterministic de-duplication). -/
def get_session_summary (L : AgentLogger) (session_id : String) :
    Option SessionSummary :=
  match lookupSession L.sessions session_id with
  | none => none
  | some session =>
    let events := L.events.filter (fun e => e.session_id = session_id)
    let protocol_violations := (events.filter
        (fun e => e.followed_clarification_protocol = some false)).length
    some {
      session_id := session_id,
      message_count := session.message_count,
      tool_call_count := session.tool_call_count,
      total_response_time_ms := session.total_response_time_ms,
      avg_response_time_ms :=
        if session.message_count > 0 then
          session.total_response_time_ms / (session.message_count : ℚ)
        else 0,
      tools_used := session.tools_used.eraseDups,
      protocol_violations := protocol_violations,
      errors := session.errors }

/-- `get_session_summary` as a state-passing operation (the Python method
reads `self` and mutates nothing). -/
def get_session_summary_op (L : AgentLogger) (session_id : String) :
    Option SessionSummary × AgentLogger :=
  (get_session_summary L session_id, L)

/-- The body returned by the `/metrics` endpoint (server.py `get_metrics`). -/
structure GlobalMetrics where
  sessions : List (String × Option SessionSummary)
  total_sessions : Nat
  total_events : Nat
  protocol_violations : Nat
  deriving DecidableEq, Repr

/-- Embeds the `/metrics` endpoint: per-session summaries plus global
counters, computed purely from the logger state. -/
def get_metrics (L : AgentLogger) : GlobalMetrics :=
  { sessions := L.sessions.map (fun p => (p.1, get_session_summary L p.1)),
    total_sessions := L.sessions.length,
    total_events := L.events.length,
    protocol_violations := (L.events.filter
        (fun e => e.followed_clarification_protocol = some false)).length }

/-- `/metrics` as a state-passing operation. -/
def get_metrics_op (L : AgentLogger) : GlobalMetrics × AgentLogger :=
  (get_metrics L, L)

/-- The metrics dictionary computed by `AgentLogger.export_metrics` (the
file write is I/O outside the embedding). -/
structure ExportedMetrics where
  sessions : List (String × SessionMetrics)
  events : List AgentResponseEvent
  total_sessions : Nat
  total_events : Nat
  total_tool_calls : Nat
  protocol_violations : Nat
  deriving DecidableEq, Repr

/-- Embeds the summary computation of `AgentLogger.export_metrics`. -/
def export_metrics_data (L : AgentLogger) : ExportedMetrics :=
  { sessions := L.sessions,
    events := L.events,
    total_sessions := L.sessions.length,
    total_events := L.events.length,
    total_tool_calls := (L.events.map (fun e => e.tool_calls.length)).sum,
    protocol_violations := (L.events.filter
        (fun e => e.followed_clarification_protocol = some false)).length }

/-- `export_metrics` as a state-passing operation. -/
def export_metrics_op (L : AgentLogger) : ExportedMetrics × AgentLogger :=
  (export_metrics_data L, L)

/-- The argument bundle of one `log_response` call. -/
structure LogCall where
  session_id : String
  message_id : String
  user_message : String
  agent_response : String
  tool_calls : List ToolCallEvent
  response_time_ms : ℚ
  token_count : Option Nat
  is_first_message : Bool
  now : ℚ
  deriving Repr

/-- Apply one `log_response` call to a logger state. -/
def applyLogCall (L : AgentLogger) (c : LogCall) : AgentLogger :=
  (log_response L c.session_id c.message_id c.user_message c.agent_response
     c.tool_calls c.response_time_ms c.token_count c.is_first_message c.now).1

/-- Apply a sequence of `log_response` calls, oldest first. -/
def applyLogCalls (L : AgentLogger) (calls : List LogCall) : AgentLogger :=
  calls.foldl applyLogCall L

/-- The response events recorded for one session. -/
def sessionEvents (events : List AgentResponseEvent) (sid : String) :
    List AgentResponseEvent :=
  events.filter (fun e => e.session_id = sid)

/-- The metrics-aggregator invariant of the spec: for every tracked session
the field `tool_call_count` is the sum of the tool-call list lengths of the
recorded events
and `message_count` is the number of recorded events. -/
def MetricsInvariant (L : AgentLogger) : Prop :=
  ∀ p ∈ L.sessions,
    p.2.tool_call_count =
      ((sessionEvents L.events p.1).map (fun e => e.tool_calls.length)).sum ∧
    p.2.message_count = (sessionEvents L.events p.1).length

/-- The auxiliary induction invariant of the metrics aggregator: session
keys are distinct, every recorded event belongs to a tracked session, and
the counter invariant holds. -/
def LoggerInvariant (L : AgentLogger) : Prop :=
  (L.sessions.map Prod.fst).Nodup ∧
  (∀ e ∈ L.events, e.session_id ∈ L.sessions.map Prod.fst) ∧
  MetricsInvariant L

/-! ## Session store and message truncation (server.py) -/

/-- A chat message as stored in a session (a dict with `role`/`content`). -/
structure Message where
  role : String
  content : String
  deriving DecidableEq, Repr

/-- The `MAX_MESSAGE_HISTORY` configuration constant (default 100). -/
def MAX_MESSAGE_HISTORY : Nat := 100

/-- Python `l[-n:]` (note `l[-0:]` is the whole list). -/
def pySliceLast {α : Type} (n : Nat) (l : List α) : List α :=
  if n = 0 then l else l.drop (l.length - n)

/-- Embeds `truncate_session_messages` with the history bound as a
parameter. -/
def truncateWith (max_history : Nat) (session_messages : List Message) :
    List Message :=
  if session_messages.length ≤ max_history + 1 then session_messages
  else
    let system_message : Option Message :=
      match session_messages.head? with
      | some m => if m.role = "system" then some m else none
      | none => none
    let recent_messages := pySliceLast max_history session_messages
    match system_message with
    | some sys => sys :: recent_messages
    | none => recent_messages

/-- Embeds `truncate_session_messages` (server.py) at the configured
`MAX_MESSAGE_HISTORY`. -/
def truncate_session_messages (session_messages : List Message) : List Message :=
  truncateWith MAX_MESSAGE_HISTORY session_messages

/-- The process-wide `sessions` dict, session id to message history. -/
abbrev SessionStore := List (String × List Message)

/-- Dictionary lookup in the session store. -/
def storeLookup (store : SessionStore) (sid : String) : Option (List Message) :=
  match store with
  | [] => none
  | p :: rest => if p.1 = sid then some p.2 else storeLookup rest sid

/-- Dictionary write in the session store (update or append). -/
def storeInsert (store : SessionStore) (sid : String) (msgs : List Message) :
    SessionStore :=
  match store with
  | [] => [(sid, msgs)]
  | p :: rest =>
    if p.1 = sid then (sid, msgs) :: rest else p :: storeInsert rest sid msgs

/-- Embeds the session deletion endpoint, a dictionary delete on the store. -/
def storeDelete (store : SessionStore) (sid : String) : SessionStore :=
  store.filter (fun p => p.1 ≠ sid)

/-- The empty session store at process start. -/
def emptyStore : SessionStore := []

/-- Modelled from the spec: the module holding the system primer text
(`prompts.py` and its `MAIN_SYSTEM_PROMPT`) is not among the embedded
sources; the spec only requires a fixed system/primer string, so the text is
modelled as an abstract fixed string. -/
def MAIN_SYSTEM_PROMPT : String := "PMM system primer"

/-- The initial system/primer message every session starts with. -/
def systemPrimerMessage : Message :=
  { role := "system", content := MAIN_SYSTEM_PROMPT }

/-- A chat request body (validation is handled by the excluded HTTP layer). -/
structure ChatRequest where
  message : String
  session_id : Option String := none
  deriving DecidableEq, Repr

/-! ## The streaming chat generator (server.py `chat_stream`)

The stream of the LangGraph agent is the input of the generator: a list of events,
each a list of `(node_name, node_output)` pairs, optionally cut short by an
exception.  Tool-call requests carry their name and arguments directly; the
dict/object wire variants of the Python code differ only in how those two
fields are read out. -/

/-- A tool-call request as found on an AI message (`name` may be missing). -/
structure ToolCallReq where
  name : Option String
  args : Args
  deriving DecidableEq, Repr

/-- One block of structured (Anthropic-format) message content. -/
inductive ContentBlock where
  | text (t : String)
  | toolUse (name : Option String) (input : Args)
  | other
  deriving DecidableEq, Repr

/-- AI message content: a plain string or a list of content blocks. -/
inductive AIContent where
  | str (s : String)
  | blocks (items : List ContentBlock)
  deriving DecidableEq, Repr

/-- An `AIMessage`: content plus the `tool_calls` attribute. -/
structure AIMsg where
  content : AIContent
  tool_calls : List ToolCallReq
  deriving DecidableEq, Repr

/-- A message in a node output list: an `AIMessage` or anything else. -/
inductive StreamMsg where
  | ai (m : AIMsg)
  | nonAI
  deriving DecidableEq, Repr

/-- A node output as streamed by the agent. -/
inductive NodeOutput where
  | msgsDict (messages : List StreamMsg)
  | aiMsg (m : AIMsg)
  | msgList (messages : List StreamMsg)
  | otherOutput
  deriving DecidableEq, Repr

/-- One streamed agent event: `(node_name, node_output)` pairs. -/
abbrev AgentEvent := List (String × NodeOutput)

/-- The agent stream as consumed by one turn: the events that arrive, and
an exception message if the stream raises after them. -/
structure TurnInput where
  items : List AgentEvent
  exc : Option String := none
  deriving DecidableEq, Repr

/-- A server-sent event emitted by the streaming endpoint. -/
inductive StreamEvent where
  | toolCall (name : String) (args : Args)
  | text (content : String)
  | done (session_id : String)
  deriving DecidableEq, Repr

/-- The loop state of the generator: accumulated text, the deduplication set,
the tracked tool-call log entries, and the emitted events. -/
structure GenState where
  full_response : String
  seen_tool_calls : List String
  tool_calls_tracked : List ToolCallEvent
  events : List StreamEvent
  deriving DecidableEq, Repr

/-- The state of the generator at the start of a turn. -/
def initialGenState : GenState :=
  { full_response := "", seen_tool_calls := [], tool_calls_tracked := [],
    events := [] }

/-- The shared tool-call handling of every wire format: skip falsy names,
deduplicate on `get_tool_call_key`, otherwise log the call and emit a
`tool_call` event. -/
def handleToolCall (session_id message_id : String) (st : GenState)
    (tool_name : Option String) (tool_args : Args) : GenState :=
  match tool_name with
  | none => st
  | some nm =>
    if nm = "" then st
    else
      let key := get_tool_call_key nm tool_args
      if st.seen_tool_calls.contains key then st
      else
        let tool_event := log_tool_call nm tool_args session_id (some message_id)
        { st with
          seen_tool_calls := st.seen_tool_calls ++ [key],
          tool_calls_tracked := st.tool_calls_tracked ++ [tool_event],
          events := st.events ++ [StreamEvent.toolCall nm tool_args] }

/-- Emit characters one at a time, appending each to `full_response`. -/
def emitChars (st : GenState) : List Char → GenState
  | [] => st
  | c :: cs =>
    emitChars { st with
      full_response := st.full_response.push c,
      events := st.events ++ [StreamEvent.text (String.singleton c)] } cs

/-- The agent-node content loop: accumulate `text` blocks into
`text_content`, handle `tool_use` blocks as tool calls in block order. -/
def processContentBlocks (session_id message_id : String) (st : GenState)
    (text_content : String) : List ContentBlock → GenState × String
  | [] => (st, text_content)
  | ContentBlock.text t :: rest =>
    processContentBlocks session_id message_id st (text_content ++ t) rest
  | ContentBlock.toolUse nm input :: rest =>
    processContentBlocks session_id message_id
      (handleToolCall session_id message_id st nm input) text_content rest
  | ContentBlock.other :: rest =>
    processContentBlocks session_id message_id st text_content rest

/-- The agent-node branch: handle the `tool_calls` attribute, then the
content blocks, then stream only the not-yet-streamed suffix of the text
character by character. -/
def processAgentMessage (session_id message_id : String) (st : GenState)
    (m : AIMsg) : GenState :=
  let st1 := m.tool_calls.foldl
    (fun s tc => handleToolCall session_id message_id s tc.name tc.args) st
  let r :=
    match m.content with
    | AIContent.str s => (st1, s)
    | AIContent.blocks items =>
      processContentBlocks session_id message_id st1 "" items
  let st2 := r.1
  let text_content := r.2
  if text_content ≠ "" then
    emitChars st2 (text_content.toList.drop st2.full_response.length)
  else st2

/-- Plain text of an AI message content (the fallback branch reads only
`text` blocks). -/
def textOfContent : AIContent → String
  | AIContent.str s => s
  | AIContent.blocks items =>
    items.foldl (fun acc b =>
      match b with
      | ContentBlock.text t => acc ++ t
      | _ => acc) ""

/-- The fallback branch for one message of a bare message list: messages
with tool calls are handled as tool calls; other AI messages are streamed
wholesale character by character (the trailing tool-call check of that
branch cannot fire, since the branch requires an empty tool-call list). -/
def processFallbackMsg (session_id message_id : String) (st : GenState) :
    StreamMsg → GenState
  | StreamMsg.nonAI => st
  | StreamMsg.ai m =>
    if m.tool_calls ≠ [] then
      m.tool_calls.foldl
        (fun s tc => handleToolCall session_id message_id s tc.name tc.args) st
    else
      let st1 := emitChars st (textOfContent m.content).toList
      m.tool_calls.foldl
        (fun s tc => handleToolCall session_id message_id s tc.name tc.args) st1

/-- Scan of a messages dict for the last `AIMessage` (the Python code walks
the list reversed and takes the first hit). -/
def lastAIMessage : List StreamMsg → Option AIMsg
  | [] => none
  | m :: rest =>
    match lastAIMessage rest with
    | some a => some a
    | none =>
      match m with
      | StreamMsg.ai a => some a
      | StreamMsg.nonAI => none

/-- The agent-node message extraction: a dict output yields its last
`AIMessage` (nothing if the list is empty), a bare `AIMessage` yields
itself. -/
def agentMessageOf : NodeOutput → Option AIMsg
  | NodeOutput.msgsDict msgs => if msgs.isEmpty then none else lastAIMessage msgs
  | NodeOutput.aiMsg m => some m
  | NodeOutput.msgList _ => none
  | NodeOutput.otherOutput => none

/-- Dispatch on one `(node_name, node_output)` pair: the `agent` branch, the
(purely logging) `tools` branch, and the list fallback. -/
def processNode (session_id message_id : String) (st : GenState) :
    String × NodeOutput → GenState
  | (node_name, node_output) =>
    if node_name = "agent" then
      match agentMessageOf node_output with
      | some m => processAgentMessage session_id message_id st m
      | none => st
    else if node_name = "tools" then st
    else
      match node_output with
      | NodeOutput.msgList msgs =>
        msgs.foldl (processFallbackMsg session_id message_id) st
      | _ => st

/-- Consume the agent stream: every event, every node of it, in order. -/
def consumeStream (session_id message_id : String) (items : List AgentEvent)
    (st : GenState) : GenState :=
  items.foldl (fun s ev => ev.foldl (processNode session_id message_id) s) st

/-- The generator body up to (not including) the final `done` event: consume
the stream; if it raised, emit the exception as an `Error: ...` text event. -/
def runGenerator (session_id message_id : String) (inp : TurnInput) : GenState :=
  let st := consumeStream session_id message_id inp.items initialGenState
  match inp.exc with
  | some e => { st with events := st.events ++ [StreamEvent.text ("Error: " ++ e)] }
  | none => st

/-! ## The chat endpoints (server.py) -/

/-- Response extraction of the `/chat` endpoint: walk the agent result
reversed to the last `AIMessage`, take its text and tool calls. -/
def extract_chat_response (agent_result : List StreamMsg) :
    String × List ToolCallReq :=
  match lastAIMessage agent_result with
  | none => ("", [])
  | some m => (textOfContent m.content, m.tool_calls)

/-- Embeds the session bookkeeping of the `/chat` endpoint: get or create the
session (primer first), append the user message, truncate, append the final
assistant text (with the hard-coded fallback when extraction found none).
`fresh_id` stands for the generated `uuid4` when no session id was sent;
`agent_result` is the message list returned by the agent. -/
def chat (store : SessionStore) (request : ChatRequest) (fresh_id : String)
    (agent_result : List StreamMsg) :
    SessionStore × String × String × List ToolCallReq :=
  let session_id := request.session_id.getD fresh_id
  let msgs0 := (storeLookup store session_id).getD [systemPrimerMessage]
  let msgs1 := msgs0 ++ [{ role := "user", content := request.message }]
  let msgs2 := truncate_session_messages msgs1
  let extracted := extract_chat_response agent_result
  let response_text :=
    if extracted.1 = "" then
      "I processed your request. (Response extraction may need adjustment)"
    else extracted.1
  let msgs3 := msgs2 ++ [{ role := "assistant", content := response_text }]
  (storeInsert store session_id msgs3, session_id, response_text, extracted.2)

/-- The outcome of one `/chat/stream` turn: new store, new logger state and
the full server-sent event sequence. -/
structure StreamTurnResult where
  store : SessionStore
  logger : AgentLogger
  events : List StreamEvent
  deriving Repr

/-- Embeds the `/chat/stream` endpoint for one turn: session get-or-create,
first-message detection, user append and truncation, the generator over the
agent stream, the `log_response` record, the assistant append and the
terminal `done` event.  `fresh_id`/`message_id` stand for the generated
uuids, `now`/`response_time_ms` for the wall clock. -/
def chat_stream_turn (store : SessionStore) (logger : AgentLogger)
    (request : ChatRequest) (fresh_id message_id : String) (inp : TurnInput)
    (now response_time_ms : ℚ) : StreamTurnResult :=
  let session_id := request.session_id.getD fresh_id
  let msgs0 := (storeLookup store session_id).getD [systemPrimerMessage]
  let is_first_message := (msgs0.filter (fun m => m.role = "user")).length = 0
  let msgs2 := truncate_session_messages
    (msgs0 ++ [{ role := "user", content := request.message }])
  let g := runGenerator session_id message_id inp
  let logger2 := (log_response logger session_id message_id request.message
      g.full_response g.tool_calls_tracked response_time_ms none
      is_first_message now).1
  let msgs3 := msgs2 ++ [{ role := "assistant", content := g.full_response }]
  { store := storeInsert store session_id msgs3,
    logger := logger2,
    events := g.events ++ [StreamEvent.done session_id] }

/-- One session-store-affecting server operation. -/
inductive ServerOp where
  | chatOp (request : ChatRequest) (fresh_id : String)
      (agent_result : List StreamMsg)
  | chatStreamOp (request : ChatRequest) (fresh_id message_id : String)
      (inp : TurnInput) (now response_time_ms : ℚ)
  | deleteOp (sid : String)

/-- Apply one server operation to the shared store and logger. -/
def applyServerOp (s : SessionStore × AgentLogger) (op : ServerOp) :
    SessionStore × AgentLogger :=
  match op with
  | ServerOp.chatOp request fresh_id agent_result =>
    ((chat s.1 request fresh_id agent_result).1, s.2)
  | ServerOp.chatStreamOp request fresh_id message_id inp now rt =>
    let r := chat_stream_turn s.1 s.2 request fresh_id message_id inp now rt
    (r.store, r.logger)
  | ServerOp.deleteOp sid => (storeDelete s.1 sid, s.2)

/-- Run a sequence of server operations from process start. -/
def runServerOps (ops : List ServerOp) : SessionStore × AgentLogger :=
  ops.foldl applyServerOp (emptyStore, initialLogger)

/-- Every stored session starts with the system primer message. -/
def SessionPrimerInvariant (store : SessionStore) : Prop :=
  ∀ p ∈ store, p.2.head? = some systemPrimerMessage

/-! ## Tool-call requests of a turn (for the deduplication claim)

`requestsOfTurn` gathers, from the raw agent stream, every tool-call
request the generator treats as processable (truthy name), across the three
wire locations: the `tool_calls` attribute on an agent-node message, a
`tool_use` content block on an agent-node message, and the `tool_calls`
attribute of a fallback-list message. -/

/-- The processable request carried by one `tool_calls` entry. -/
def reqsOfToolCall (tc : ToolCallReq) : List (String × Args) :=
  match tc.name with
  | some nm => if nm = "" then [] else [(nm, tc.args)]
  | none => []

/-- The processable requests among the content blocks of a message. -/
def reqsOfBlocks (items : List ContentBlock) : List (String × Args) :=
  items.flatMap (fun b =>
    match b with
    | ContentBlock.toolUse nm input => reqsOfToolCall { name := nm, args := input }
    | _ => [])

/-- The processable requests of an agent-node message. -/
def reqsOfAgentMessage (m : AIMsg) : List (String × Args) :=
  m.tool_calls.flatMap reqsOfToolCall ++
    (match m.content with
     | AIContent.str _ => []
     | AIContent.blocks items => reqsOfBlocks items)

/-- The processable requests of one fallback-list message. -/
def reqsOfFallbackMsg : StreamMsg → List (String × Args)
  | StreamMsg.ai m => m.tool_calls.flatMap reqsOfToolCall
  | StreamMsg.nonAI => []

/-- The processable requests of one `(node_name, node_output)` pair. -/
def reqsOfNode : String × NodeOutput → List (String × Args)
  | (node_name, node_output) =>
    if node_name = "agent" then
      match agentMessageOf node_output with
      | some m => reqsOfAgentMessage m
      | none => []
    else if node_name = "tools" then []
    else
      match node_output with
      | NodeOutput.msgList msgs => msgs.flatMap reqsOfFallbackMsg
      | _ => []

/-- All processable tool-call requests of the agent stream of one turn. -/
def requestsOfTurn (items : List AgentEvent) : List (String × Args) :=
  items.flatMap (fun ev => ev.flatMap reqsOfNode)

/-- The deduplication keys of the `tool_call` events in an emitted event
list, in order. -/
def toolKeysOf (events : List StreamEvent) : List String :=
  events.filterMap (fun e =>
    match e with
    | StreamEvent.toolCall nm args => some (get_tool_call_key nm args)
    | _ => none)

/-- The contents of the `text` events in an emitted event list, in order. -/
def textContentsOf (events : List StreamEvent) : List String :=
  events.filterMap (fun e =>
    match e with
    | StreamEvent.text c => some c
    | _ => none)

/-- Whether an event is a `tool_call` event with the given deduplication
key. -/
def isToolCallWithKey (k : String) : StreamEvent → Bool
  | StreamEvent.toolCall nm args => get_tool_call_key nm args == k
  | _ => false

/-- The deduplication key of a tracked tool-call log entry. -/
def trackedKey (ev : ToolCallEvent) : String :=
  get_tool_call_key ev.tool_name ev.args

/-- The generator-state invariant: the emitted tool-call events carry
pairwise distinct keys, the deduplication set holds exactly those keys, the
tracked log entries match the emitted tool-call events one for one, the
emitted text events joined in order give the accumulated response, and each
text event carries exactly one character. -/
def GenStateInvariant (st : GenState) : Prop :=
  (toolKeysOf st.events).Nodup ∧
  (∀ k, k ∈ st.seen_tool_calls ↔ k ∈ toolKeysOf st.events) ∧
  st.tool_calls_tracked.map trackedKey = toolKeysOf st.events ∧
  String.join (textContentsOf st.events) = st.full_response ∧
  (∀ c ∈ textContentsOf st.events, c.length = 1)

/-! ## The streaming turn loop with its iteration cap

Modelled from the spec: the round loop itself (alternating model calls and
tool execution under a 10-round iteration cap) is provided by the external
ReAct agent runtime and is not among the embedded sources; only its caller
is.  The definitions below follow the description of the loop in the spec: each
round asks the model once, emits its tool calls and its text, executes the
tools, and the loop stops when a response has no tool calls or the cap is
exhausted, after which a `done` event is emitted. -/

/-- Modelled from the spec: one model response, optional text plus the
requested tool calls. -/
structure ModelResponse where
  text : String
  tool_calls : List (String × Args)
  deriving Repr

/-- Modelled from the spec: the iteration cap of the streaming turn loop. -/
def ITERATION_CAP : Nat := 10

/-- Modelled from the spec: the round loop.  Returns the accumulated text,
the number of model-call/tool-execution rounds used, and the emitted
events. -/
def turnLoop (model : List Message → ModelResponse)
    (exec_tool : String → Args → String) :
    Nat → List Message → String → List StreamEvent →
    String × Nat × List StreamEvent
  | 0, _, acc, events => (acc, 0, events)
  | fuel + 1, history, acc, events =>
    let resp := model history
    let events := events ++
      resp.tool_calls.map (fun tc => StreamEvent.toolCall tc.1 tc.2) ++
      resp.text.toList.map (fun c => StreamEvent.text (String.singleton c))
    let acc := acc ++ resp.text
    if resp.tool_calls = [] then (acc, 1, events)
    else
      let history := history ++
        [{ role := "assistant", content := resp.text }] ++
        resp.tool_calls.map (fun tc =>
          ({ role := "tool_result", content := exec_tool tc.1 tc.2 } : Message))
      let r := turnLoop model exec_tool fuel history acc events
      (r.1, r.2.1 + 1, r.2.2)

/-- The result of one capped streaming turn. -/
structure LoopResult where
  final_text : String
  rounds : Nat
  events : List StreamEvent
  deriving Repr

/-- Modelled from the spec: a whole streaming turn, the capped round loop
followed by the terminal `done` event. -/
def run_stream_turn (model : List Message → ModelResponse)
    (exec_tool : String → Args → String) (history : List Message)
    (session_id : String) : LoopResult :=
  let r := turnLoop model exec_tool ITERATION_CAP history "" []
  { final_text := r.1, rounds := r.2.1,
    events := r.2.2 ++ [StreamEvent.done session_id] }

/-! # Theorems -/

theorem splitOnChar_ne_nil (sep : Char) (cs : List Char) : splitOnChar sep cs ≠ [] := by
  cases cs with
  | nil => simp [splitOnChar]
  | cons c rest =>
    simp only [splitOnChar]
    by_cases h : c = sep
    · simp [h]
    · simp only [h, if_false]
      cases splitOnChar sep rest with
      | nil => simp
      | cons g gs => simp

/-- A character distinct from the separator occurs in the string iff it occurs
in one of the split groups. -/
theorem mem_splitOnChar_iff (sep c : Char) (hc : c ≠ sep) (cs : List Char) :
    (∃ g ∈ splitOnChar sep cs, c ∈ g) ↔ c ∈ cs := by
  induction cs with
  | nil => simp [splitOnChar]
  | cons d rest ih =>
    simp only [splitOnChar]
    by_cases h : d = sep
    · subst h
      simp only [if_pos rfl, List.mem_cons]
      constructor
      · rintro ⟨g, hg, hcg⟩
        rcases List.mem_cons.mp hg with hg | hg
        · subst hg; simp at hcg
        · exact Or.inr (ih.mp ⟨g, hg, hcg⟩)
      · rintro (hcd | hcr)
        · exact absurd hcd hc
        · obtain ⟨g, hg, hcg⟩ := ih.mpr hcr
          exact ⟨g, List.mem_cons_of_mem _ hg, hcg⟩
    · simp only [h, if_false]
      rcases hr : splitOnChar sep rest with _ | ⟨g, gs⟩
      · exact absurd hr (splitOnChar_ne_nil sep rest)
      · constructor
        · rintro ⟨g', hg', hcg'⟩
          rcases List.mem_cons.mp hg' with hg' | hg'
          · subst hg'
            rcases List.mem_cons.mp hcg' with hcd | hcg
            · exact List.mem_cons.mpr (Or.inl hcd)
            · exact List.mem_cons.mpr
                (Or.inr (ih.mp ⟨g, by rw [hr]; exact List.mem_cons_self _ _, hcg⟩))
          · exact List.mem_cons.mpr
              (Or.inr (ih.mp ⟨g', by rw [hr]; exact List.mem_cons_of_mem _ hg', hcg'⟩))
        · intro hmem
          rcases List.mem_cons.mp hmem with hcd | hcr
          · exact ⟨d :: g, List.mem_cons_self _ _, by simp [hcd]⟩
          · obtain ⟨g', hg', hcg'⟩ := ih.mpr hcr
            rw [hr] at hg'
            rcases List.mem_cons.mp hg' with hg'' | hg''
            · refine ⟨d :: g, List.mem_cons_self _ _, ?_⟩
              subst hg''
              exact List.mem_cons_of_mem _ hcg'
            · exact ⟨g', List.mem_cons_of_mem _ hg'', hcg'⟩

/-- `pyContains` distributes over `pySplit` for a character other than the
separator. -/
theorem pyContains_iff_exists_line (s : String) (sep c : Char) (hc : c ≠ sep) :
    pyContains s c = true ↔ ∃ l ∈ pySplit s sep, pyContains l c = true := by
  unfold pyContains pySplit
  simp only [List.contains, List.elem_iff, List.mem_map]
  rw [← mem_splitOnChar_iff sep c hc s.toList]
  constructor
  · rintro ⟨g, hg, hcg⟩
    exact ⟨String.mk g, ⟨g, hg, rfl⟩, hcg⟩
  · rintro ⟨l, ⟨g, hg, rfl⟩, hcl⟩
    exact ⟨g, hg, hcl⟩

/-- C9: for every combination of the five boolean inputs,
`calculate_positioning_readiness` returns a score equal to twice the number
of true inputs; strengths and gaps are disjoint and together contain exactly
the five labelled checks; and `next_action` is the ready message exactly
when all five inputs are true, otherwise the message of the first false flag
in the fixed priority order target customer, competitive alternative,
differentiator, customer proof, category. -/
theorem calculate_positioning_readiness_spec : ∀ a b c d e : Bool,
    (calculate_positioning_readiness a b c d e).score =
      2 * ([a, b, c, d, e].countP (fun x => x)) ∧
    (∀ s ∈ (calculate_positioning_readiness a b c d e).strengths,
      s ∉ (calculate_positioning_readiness a b c d e).gaps) ∧
    (∀ s ∈ readinessCheckLabels,
      s ∈ (calculate_positioning_readiness a b c d e).strengths ∨
      s ∈ (calculate_positioning_readiness a b c d e).gaps) ∧
    (∀ s ∈ (calculate_positioning_readiness a b c d e).strengths,
      s ∈ readinessCheckLabels) ∧
    (∀ s ∈ (calculate_positioning_readiness a b c d e).gaps,
      s ∈ readinessCheckLabels) ∧
    ((calculate_positioning_readiness a b c d e).next_action =
        "You\x27re ready to create positioning!" ↔ (a && b && c && d && e) = true) ∧
    (a = false → (calculate_positioning_readiness a b c d e).next_action =
      "Define your target customer segment first") ∧
    (a = true ∧ b = false → (calculate_positioning_readiness a b c d e).next_action =
      "Identify what customers use before finding you") ∧
    (a = true ∧ b = true ∧ c = false →
      (calculate_positioning_readiness a b c d e).next_action =
        "Articulate what you have that alternatives don\x27t") ∧
    (a = true ∧ b = true ∧ c = true ∧ d = false →
      (calculate_positioning_readiness a b c d e).next_action =
        "Collect customer testimonials and use cases") ∧
    (a = true ∧ b = true ∧ c = true ∧ d = true ∧ e = false →
      (calculate_positioning_readiness a b c d e).next_action =
        "Define your market category") := by
  intro a b c d e
  cases a <;> cases b <;> cases c <;> cases d <;> cases e <;> decide

/-- Witness for C9: a concrete input with the first flag false is scored 8
and directed to define the target customer first. -/
theorem calculate_positioning_readiness_spec_witness :
    (calculate_positioning_readiness false true true true true).next_action =
      "Define your target customer segment first" :=
  (calculate_positioning_readiness_spec false true true true true).2.2.2.2.2.2.1 rfl

/-- C2: the protocol auditor returns `(none, none)` off the first message;
on the first message with tool calls it is non-compliant, extracting the
first line containing a question mark when one exists; with no tool calls
and a question line of trimmed length over 10 it is compliant with that
question extracted; with no tool calls and no question mark it returns
`(none, none)`. -/
theorem analyze_clarification_protocol_spec (um ar : String)
    (tcs : List ToolCallEvent) (first : Bool) :
    (first = false →
      _analyze_clarification_protocol um ar tcs first = (none, none)) ∧
    (first = true → 0 < tcs.length → pyContains ar '?' = true →
      _analyze_clarification_protocol um ar tcs first =
        (some false,
          ((pySplit ar '\n').filter (fun line => pyContains line '?')).head?) ∧
      ((pySplit ar '\n').filter (fun line => pyContains line '?')) ≠ []) ∧
    (first = true → 0 < tcs.length → pyContains ar '?' = false →
      _analyze_clarification_protocol um ar tcs first = (some false, none)) ∧
    (first = true → tcs.length = 0 →
      (∃ l ∈ pySplit ar '\n', pyContains l '?' = true ∧ 10 < (pyStrip l).length) →
      _analyze_clarification_protocol um ar tcs first =
        (some true,
          ((pySplit ar '\n').filter
            (fun line => pyContains line '?' &&
              decide ((pyStrip line).length > 10))).head?) ∧
      ((pySplit ar '\n').filter
        (fun line => pyContains line '?' &&
          decide ((pyStrip line).length > 10))) ≠ []) ∧
    (first = true → tcs.length = 0 → pyContains ar '?' = false →
      _analyze_clarification_protocol um ar tcs first = (none, none)) := by
  refine ⟨?_, ?_, ?_, ?_, ?_⟩
  · intro hf
    subst hf
    simp [_analyze_clarification_protocol]
  · intro hf hlen hq
    subst hf
    constructor
    · simp [_analyze_clarification_protocol, hq, Nat.pos_iff_ne_zero.mp hlen,
        Nat.not_eq_zero_of_lt hlen, hlen]
    · obtain ⟨l, hl, hcl⟩ :=
        (pyContains_iff_exists_line ar '\n' '?' (by decide)).mp hq
      exact List.ne_nil_of_mem (List.mem_filter.mpr ⟨hl, hcl⟩)
  · intro hf hlen hq
    subst hf
    simp [_analyze_clarification_protocol, hq, Nat.not_eq_zero_of_lt hlen, hlen]
  · intro hf hlen hex
    subst hf
    obtain ⟨l, hl, hcl, hstrip⟩ := hex
    have hq : pyContains ar '?' = true :=
      (pyContains_iff_exists_line ar '\n' '?' (by decide)).mpr ⟨l, hl, hcl⟩
    constructor
    · simp [_analyze_clarification_protocol, hq, hlen]
    · refine List.ne_nil_of_mem (List.mem_filter.mpr ⟨hl, ?_⟩)
      simp [hcl, hstrip]
  · intro hf hlen hq
    subst hf
    simp [_analyze_clarification_protocol, hq, hlen]

/-- Witness for C2: the example inputs given by the spec, derived from the
claim theorem at concrete inputs. -/
theorem analyze_clarification_protocol_spec_witness :
    _analyze_clarification_protocol "hi" "Why?" [] false = (none, none) ∧
    _analyze_clarification_protocol "hi" "plain text" [] true = (none, none) ∧
    _analyze_clarification_protocol "hi" "Why do you ask?" [] true =
      (some true, some "Why do you ask?") := by
  refine ⟨(analyze_clarification_protocol_spec "hi" "Why?" [] false).1 rfl,
    (analyze_clarification_protocol_spec "hi" "plain text" [] true).2.2.2.2 rfl rfl
      (by decide), ?_⟩
  have h := (analyze_clarification_protocol_spec "hi" "Why do you ask?" [] true).2.2.2.1
    rfl rfl ⟨"Why do you ask?", by decide, by decide, by decide⟩
  rw [h.1]
  decide

theorem pySliceLast_eq_drop {α : Type} (n : Nat) (hn : 0 < n) (l : List α) :
    pySliceLast n l = l.drop (l.length - n) := by
  unfold pySliceLast
  rw [if_neg (Nat.pos_iff_ne_zero.mp hn)]

theorem truncateWith_of_le (n : Nat) (msgs : List Message)
    (h : msgs.length ≤ n + 1) : truncateWith n msgs = msgs := by
  unfold truncateWith
  rw [if_pos h]

theorem truncateWith_of_gt_system (n : Nat) (hn : 0 < n) (m0 : Message)
    (rest : List Message) (h : n + 1 < (m0 :: rest).length)
    (hrole : m0.role = "system") :
    truncateWith n (m0 :: rest) =
      m0 :: (m0 :: rest).drop ((m0 :: rest).length - n) := by
  unfold truncateWith
  rw [if_neg (by omega)]
  simp only [List.head?_cons, hrole, if_true]
  rw [pySliceLast_eq_drop n hn]

theorem truncateWith_of_gt_nonsystem (n : Nat) (hn : 0 < n) (m0 : Message)
    (rest : List Message) (h : n + 1 < (m0 :: rest).length)
    (hrole : ¬ m0.role = "system") :
    truncateWith n (m0 :: rest) =
      (m0 :: rest).drop ((m0 :: rest).length - n) := by
  unfold truncateWith
  rw [if_neg (by omega)]
  simp only [List.head?_cons, if_neg hrole]
  rw [pySliceLast_eq_drop n hn]

theorem truncateWith_length_le (n : Nat) (hn : 0 < n) (msgs : List Message) :
    (truncateWith n msgs).length ≤ n + 1 := by
  by_cases h : msgs.length ≤ n + 1
  · rw [truncateWith_of_le n msgs h]; exact h
  · push_neg at h
    cases msgs with
    | nil => simp at h
    | cons m0 rest =>
      by_cases hrole : m0.role = "system"
      · rw [truncateWith_of_gt_system n hn m0 rest h hrole]
        simp only [List.length_cons, List.length_drop] at *
        omega
      · rw [truncateWith_of_gt_nonsystem n hn m0 rest h hrole]
        simp only [List.length_cons, List.length_drop] at *
        omega

theorem truncateWith_head_system (n : Nat) (hn : 0 < n) (msgs : List Message)
    (m : Message) (hhead : msgs.head? = some m) (hrole : m.role = "system") :
    (truncateWith n msgs).head? = some m := by
  cases msgs with
  | nil => simp at hhead
  | cons m0 rest =>
    simp only [List.head?_cons, Option.some.injEq] at hhead
    subst hhead
    by_cases h : (m0 :: rest).length ≤ n + 1
    · rw [truncateWith_of_le n _ h]
      rfl
    · push_neg at h
      rw [truncateWith_of_gt_system n hn m0 rest h hrole]
      rfl

/-- C3: truncation at `MAX_MESSAGE_HISTORY` returns at most
`MAX_MESSAGE_HISTORY + 1` messages, preserves a leading system message, is
the identity on histories within the bound, and over the bound keeps exactly
the most recent `MAX_MESSAGE_HISTORY` messages besides the preserved system
head. -/
theorem truncate_session_messages_spec (msgs : List Message) :
    (truncate_session_messages msgs).length ≤ MAX_MESSAGE_HISTORY + 1 ∧
    (∀ m, msgs.head? = some m → m.role = "system" →
      (truncate_session_messages msgs).head? = some m) ∧
    (msgs.length ≤ MAX_MESSAGE_HISTORY + 1 →
      truncate_session_messages msgs = msgs) ∧
    (MAX_MESSAGE_HISTORY + 1 < msgs.length →
      (∀ m, msgs.head? = some m → m.role = "system" →
        truncate_session_messages msgs =
          m :: msgs.drop (msgs.length - MAX_MESSAGE_HISTORY)) ∧
      (∀ m, msgs.head? = some m → ¬ m.role = "system" →
        truncate_session_messages msgs =
          msgs.drop (msgs.length - MAX_MESSAGE_HISTORY))) := by
  have hn : 0 < MAX_MESSAGE_HISTORY := by decide
  refine ⟨truncateWith_length_le _ hn msgs,
    fun m hm hrole => truncateWith_head_system _ hn msgs m hm hrole,
    truncateWith_of_le _ msgs, ?_⟩
  intro hgt
  cases msgs with
  | nil => simp at hgt
  | cons m0 rest =>
    constructor
    · intro m hm hrole
      simp only [List.head?_cons, Option.some.injEq] at hm
      subst hm
      exact truncateWith_of_gt_system _ hn m0 rest hgt hrole
    · intro m hm hrole
      simp only [List.head?_cons, Option.some.injEq] at hm
      subst hm
      exact truncateWith_of_gt_nonsystem _ hn m0 rest hgt hrole

/-- Witness for C3: a two-message history is within the bound and returned
unchanged. -/
theorem truncate_session_messages_spec_witness :
    truncate_session_messages
      [systemPrimerMessage, { role := "user", content := "hi" }] =
      [systemPrimerMessage, { role := "user", content := "hi" }] :=
  (truncate_session_messages_spec
    [systemPrimerMessage, { role := "user", content := "hi" }]).2.2.1 (by decide)

theorem lookupSession_eq_none_iff (ss : List (String × SessionMetrics))
    (sid : String) :
    lookupSession ss sid = none ↔ ∀ p ∈ ss, p.1 ≠ sid := by
  induction ss with
  | nil => simp [lookupSession]
  | cons p rest ih =>
    by_cases h : p.1 = sid
    · simp [lookupSession, h]
    · simp [lookupSession, h, ih]

theorem lookupSession_mem (ss : List (String × SessionMetrics)) (sid : String)
    (m : SessionMetrics) (h : lookupSession ss sid = some m) : (sid, m) ∈ ss := by
  induction ss with
  | nil => simp [lookupSession] at h
  | cons p rest ih =>
    cases p with
    | mk k v =>
      by_cases hk : k = sid
      · simp only [lookupSession, hk, if_true, Option.some.injEq] at h
        subst hk
        subst h
        exact List.mem_cons_self _ _
      · simp only [lookupSession, hk, if_false] at h
        exact List.mem_cons_of_mem _ (ih h)

theorem updateSession_keys (ss : List (String × SessionMetrics)) (sid : String)
    (f : SessionMetrics → SessionMetrics) :
    (updateSession ss sid f).map Prod.fst = ss.map Prod.fst := by
  induction ss with
  | nil => rfl
  | cons p rest ih =>
    by_cases h : p.1 = sid
    · simp [updateSession, h]
    · simp [updateSession, h, ih]

theorem updateSession_append_fresh (ss : List (String × SessionMetrics))
    (sid : String) (f : SessionMetrics → SessionMetrics) (m : SessionMetrics)
    (h : lookupSession ss sid = none) :
    updateSession (ss ++ [(sid, m)]) sid f = ss ++ [(sid, f m)] := by
  induction ss with
  | nil => simp [updateSession]
  | cons p rest ih =>
    by_cases hp : p.1 = sid
    · rw [lookupSession, if_pos hp] at h
      exact absurd h (by simp)
    · rw [lookupSession, if_neg hp] at h
      simp only [List.cons_append, updateSession, hp, if_false, List.append_eq]
      rw [ih h]

theorem mem_updateSession (ss : List (String × SessionMetrics)) (sid : String)
    (f : SessionMetrics → SessionMetrics) (hnd : (ss.map Prod.fst).Nodup) :
    ∀ q ∈ updateSession ss sid f,
      (q ∈ ss ∧ q.1 ≠ sid) ∨
      (∃ m, lookupSession ss sid = some m ∧ q = (sid, f m)) := by
  induction ss with
  | nil => intro q hq; simp [updateSession] at hq
  | cons p rest ih =>
    intro q hq
    rw [List.map_cons, List.nodup_cons] at hnd
    by_cases hp : p.1 = sid
    · rw [updateSession, if_pos hp] at hq
      rcases List.mem_cons.mp hq with hq | hq
      · right
        exact ⟨p.2, by rw [lookupSession, if_pos hp], by rw [hq, hp]⟩
      · left
        refine ⟨List.mem_cons_of_mem _ hq, ?_⟩
        intro hqs
        have hmem : q.1 ∈ rest.map Prod.fst := List.mem_map_of_mem _ hq
        rw [hqs, ← hp] at hmem
        exact hnd.1 hmem
    · rw [updateSession, if_neg hp] at hq
      rcases List.mem_cons.mp hq with hq | hq
      · subst hq
        exact Or.inl ⟨List.mem_cons_self _ _, hp⟩
      · rcases ih hnd.2 q hq with ⟨hmem, hne⟩ | ⟨m, hl, hq'⟩
        · exact Or.inl ⟨List.mem_cons_of_mem _ hmem, hne⟩
        · exact Or.inr ⟨m, by rw [lookupSession, if_neg hp]; exact hl, hq'⟩

theorem sessionEvents_append (evs evs' : List AgentResponseEvent) (sid : String) :
    sessionEvents (evs ++ evs') sid =
      sessionEvents evs sid ++ sessionEvents evs' sid := by
  simp [sessionEvents, List.filter_append]

theorem sessionEvents_eq_nil (evs : List AgentResponseEvent) (sid : String)
    (h : ∀ e ∈ evs, e.session_id ≠ sid) : sessionEvents evs sid = [] := by
  refine List.filter_eq_nil_iff.mpr ?_
  intro e he
  simpa using h e he

theorem log_response_preserves_invariant (L : AgentLogger) (c : LogCall)
    (h : LoggerInvariant L) : LoggerInvariant (applyLogCall L c) := by
  obtain ⟨hnd, hev, hinv⟩ := h
  rcases hlk : lookupSession L.sessions c.session_id with _ | m0
  · -- the session is new: a fresh metrics record is appended and updated
    have hkey : ∀ p ∈ L.sessions, p.1 ≠ c.session_id :=
      (lookupSession_eq_none_iff _ _).mp hlk
    have hnotkey : c.session_id ∉ L.sessions.map Prod.fst := by
      intro hmem
      obtain ⟨p, hp, hp1⟩ := List.mem_map.mp hmem
      exact hkey p hp hp1
    have hst : applyLogCall L c =
        { events := L.events ++ [(log_response L c.session_id c.message_id
            c.user_message c.agent_response c.tool_calls c.response_time_ms
            c.token_count c.is_first_message c.now).2],
          sessions := L.sessions ++ [(c.session_id,
            { session_id := c.session_id, start_time := c.now,
              message_count := 1,
              tool_call_count := c.tool_calls.length,
              total_response_time_ms := c.response_time_ms,
              tools_used := c.tool_calls.map (fun tc => tc.tool_name),
              errors := [] })] } := by
      simp only [applyLogCall, log_response, hlk]
      rw [updateSession_append_fresh _ _ _ _ hlk]
      simp
    rw [hst]
    refine ⟨?_, ?_, ?_⟩
    · simp only [List.map_append, List.map_cons, List.map_nil]
      rw [List.nodup_append]
      refine ⟨hnd, List.nodup_singleton _, ?_⟩
      intro a ha hb
      rcases List.mem_singleton.mp hb with rfl
      exact hnotkey ha
    · intro e he
      simp only [List.map_append, List.map_cons, List.map_nil]
      rcases List.mem_append.mp he with he | he
      · exact List.mem_append.mpr (Or.inl (hev e he))
      · rcases List.mem_singleton.mp he with rfl
        exact List.mem_append.mpr (Or.inr (by simp [log_response]))
    · intro p hp
      rcases List.mem_append.mp hp with hp | hp
      · have hne : p.1 ≠ c.session_id := hkey p hp
        have hfilter : sessionEvents (L.events ++ [(log_response L c.session_id
            c.message_id c.user_message c.agent_response c.tool_calls
            c.response_time_ms c.token_count c.is_first_message c.now).2]) p.1 =
            sessionEvents L.events p.1 := by
          rw [sessionEvents_append]
          rw [sessionEvents_eq_nil [(log_response L c.session_id c.message_id
            c.user_message c.agent_response c.tool_calls c.response_time_ms
            c.token_count c.is_first_message c.now).2] p.1 ?_]
          · simp
          · intro e he
            rcases List.mem_singleton.mp he with rfl
            simp only [log_response]
            exact fun hcontra => hne hcontra.symm
        simp only [hfilter]
        exact hinv p hp
      · rcases List.mem_singleton.mp hp with rfl
        have hold : sessionEvents L.events c.session_id = [] := by
          refine sessionEvents_eq_nil _ _ ?_
          intro e he hcontra
          rw [← hcontra] at hnotkey
          exact hnotkey (hev e he)
        rw [sessionEvents_append, hold]
        constructor
        · simp [sessionEvents, log_response]
        · simp [sessionEvents, log_response]
  · -- the session exists: its metrics record is updated in place
    have hmem0 : (c.session_id, m0) ∈ L.sessions := lookupSession_mem _ _ _ hlk
    have hst : applyLogCall L c =
        { events := L.events ++ [(log_response L c.session_id c.message_id
            c.user_message c.agent_response c.tool_calls c.response_time_ms
            c.token_count c.is_first_message c.now).2],
          sessions := updateSession L.sessions c.session_id (fun s =>
            { s with message_count := s.message_count + 1,
                     tool_call_count := s.tool_call_count + c.tool_calls.length,
                     total_response_time_ms :=
                       s.total_response_time_ms + c.response_time_ms,
                     tools_used := s.tools_used ++
                       c.tool_calls.map (fun tc => tc.tool_name) }) } := by
      simp only [applyLogCall, log_response, hlk]
    rw [hst]
    refine ⟨?_, ?_, ?_⟩
    · rw [updateSession_keys]
      exact hnd
    · intro e he
      rw [updateSession_keys]
      rcases List.mem_append.mp he with he | he
      · exact hev e he
      · rcases List.mem_singleton.mp he with rfl
        simp only [log_response]
        exact List.mem_map_of_mem _ hmem0
    · intro p hp
      rcases mem_updateSession L.sessions c.session_id _ hnd p hp with
        ⟨hmem, hne⟩ | ⟨m, hl, hq⟩
      · have hfilter : sessionEvents (L.events ++ [(log_response L c.session_id
            c.message_id c.user_message c.agent_response c.tool_calls
            c.response_time_ms c.token_count c.is_first_message c.now).2]) p.1 =
            sessionEvents L.events p.1 := by
          rw [sessionEvents_append]
          rw [sessionEvents_eq_nil [(log_response L c.session_id c.message_id
            c.user_message c.agent_response c.tool_calls c.response_time_ms
            c.token_count c.is_first_message c.now).2] p.1 ?_]
          · simp
          · intro e he
            rcases List.mem_singleton.mp he with rfl
            simp only [log_response]
            exact fun hcontra => hne hcontra.symm
        simp only [hfilter]
        exact hinv p hmem
      · rw [hl] at hlk
        injection hlk with hm0
        subst hm0
        subst hq
        have hm := hinv (c.session_id, m) hmem0
        rw [sessionEvents_append]
        constructor
        · simp only [List.map_append, List.sum_append]
          rw [← hm.1]
          simp [sessionEvents, log_response]
        · simp only [List.length_append]
          rw [← hm.2]
          simp [sessionEvents, log_response]

theorem initialLogger_invariant : LoggerInvariant initialLogger := by
  refine ⟨by simp [initialLogger], ?_, ?_⟩
  · intro e he
    simp [initialLogger] at he
  · intro p hp
    simp [initialLogger] at hp

theorem applyLogCalls_invariant (calls : List LogCall) :
    LoggerInvariant (applyLogCalls initialLogger calls) := by
  suffices h : ∀ L, LoggerInvariant L → LoggerInvariant (calls.foldl applyLogCall L) from
    h initialLogger initialLogger_invariant
  induction calls with
  | nil => intro L h; exact h
  | cons c cs ih =>
    intro L h
    exact ih _ (log_response_preserves_invariant L c h)

/-- C6: after any sequence of `log_response` calls on a fresh logger, for every
tracked session the field `tool_call_count` equals the sum of the lengths of the
tool-call lists of the recorded events for that session, and its `message_count`
equals the number of recorded events for that session. -/
theorem log_response_metrics_spec (calls : List LogCall) :
    MetricsInvariant (applyLogCalls initialLogger calls) :=
  (applyLogCalls_invariant calls).2.2

/-- Witness for C6: a concrete two-call run satisfies the counter
invariant. -/
theorem log_response_metrics_spec_witness :
    MetricsInvariant (applyLogCalls initialLogger
      [{ session_id := "s", message_id := "m1", user_message := "hi",
         agent_response := "ok", tool_calls := [log_tool_call "t" [] "s" none],
         response_time_ms := 5, token_count := none, is_first_message := true,
         now := 0 },
       { session_id := "s", message_id := "m2", user_message := "again",
         agent_response := "done", tool_calls := [], response_time_ms := 3,
         token_count := none, is_first_message := false, now := 1 }]) :=
  log_response_metrics_spec
    [{ session_id := "s", message_id := "m1", user_message := "hi",
       agent_response := "ok", tool_calls := [log_tool_call "t" [] "s" none],
       response_time_ms := 5, token_count := none, is_first_message := true,
       now := 0 },
     { session_id := "s", message_id := "m2", user_message := "again",
       agent_response := "done", tool_calls := [], response_time_ms := 3,
       token_count := none, is_first_message := false, now := 1 }]

/-- C7: `get_session_summary` twice on one state returns identical values
and leaves the state unchanged; the `/metrics` and export reads also leave
the state unchanged; `log_response` is the sole mutator of the event log
and only appends the newly created event, never editing history. -/
theorem reads_pure_spec (L : AgentLogger) (sid : String) :
    (get_session_summary_op L sid).1 =
      (get_session_summary_op (get_session_summary_op L sid).2 sid).1 ∧
    (get_session_summary_op L sid).2 = L ∧
    (get_metrics_op L).2 = L ∧
    (export_metrics_op L).2 = L ∧
    (∀ c : LogCall, (applyLogCall L c).events =
      L.events ++ [(log_response L c.session_id c.message_id c.user_message
        c.agent_response c.tool_calls c.response_time_ms c.token_count
        c.is_first_message c.now).2]) :=
  ⟨rfl, rfl, rfl, rfl, fun _ => rfl⟩

/-- Witness for C7 at a concrete state. -/
theorem reads_pure_spec_witness :
    (get_session_summary_op initialLogger "s").2 = initialLogger :=
  (reads_pure_spec initialLogger "s").2.1

theorem contains_eq_true_iff_mem (l : List String) (a : String) :
    l.contains a = true ↔ a ∈ l := by
  simp [List.contains, List.elem_iff]

theorem toolKeysOf_append (a b : List StreamEvent) :
    toolKeysOf (a ++ b) = toolKeysOf a ++ toolKeysOf b := by
  simp [toolKeysOf, List.filterMap_append]

theorem textContentsOf_append (a b : List StreamEvent) :
    textContentsOf (a ++ b) = textContentsOf a ++ textContentsOf b := by
  simp [textContentsOf, List.filterMap_append]

theorem join_concat (xs : List String) (s : String) :
    String.join (xs ++ [s]) = String.join xs ++ s := by
  simp [String.join, List.foldl_append]

theorem handleToolCall_spec (sid mid : String) (st : GenState)
    (nm : Option String) (args : Args) (h : GenStateInvariant st) :
    GenStateInvariant (handleToolCall sid mid st nm args) ∧
    (∀ k ∈ st.seen_tool_calls,
      k ∈ (handleToolCall sid mid st nm args).seen_tool_calls) ∧
    (∀ r ∈ reqsOfToolCall { name := nm, args := args },
      get_tool_call_key r.1 r.2 ∈
        (handleToolCall sid mid st nm args).seen_tool_calls) := by
  obtain ⟨hnd, hiff, htr, hjoin, hlen⟩ := h
  cases nm with
  | none =>
    refine ⟨⟨hnd, hiff, htr, hjoin, hlen⟩, fun k hk => hk, ?_⟩
    intro r hr
    simp [reqsOfToolCall] at hr
  | some n =>
    by_cases hn : n = ""
    · subst hn
      simp only [handleToolCall, if_pos rfl]
      refine ⟨⟨hnd, hiff, htr, hjoin, hlen⟩, fun k hk => hk, ?_⟩
      intro r hr
      simp [reqsOfToolCall] at hr
    · by_cases hseen : st.seen_tool_calls.contains (get_tool_call_key n args)
      · simp only [handleToolCall, if_neg hn, hseen, if_true]
        refine ⟨⟨hnd, hiff, htr, hjoin, hlen⟩, fun k hk => hk, ?_⟩
        intro r hr
        simp only [reqsOfToolCall, if_neg hn, List.mem_singleton] at hr
        subst hr
        exact (contains_eq_true_iff_mem _ _).mp hseen
      · have hnotmem : get_tool_call_key n args ∉ st.seen_tool_calls := by
          intro hmem
          exact hseen ((contains_eq_true_iff_mem _ _).mpr hmem)
        have hnotkeys : get_tool_call_key n args ∉ toolKeysOf st.events := by
          intro hmem
          exact hnotmem ((hiff _).mpr hmem)
        simp only [handleToolCall, if_neg hn, Bool.not_eq_true] at *
        rw [if_neg (by simpa using hseen)]
        have hkeys : toolKeysOf (st.events ++
            [StreamEvent.toolCall n args]) =
            toolKeysOf st.events ++ [get_tool_call_key n args] := by
          rw [toolKeysOf_append]; rfl
        have htexts : textContentsOf (st.events ++
            [StreamEvent.toolCall n args]) = textContentsOf st.events := by
          rw [textContentsOf_append]; simp [textContentsOf]
        refine ⟨⟨?_, ?_, ?_, ?_, ?_⟩, ?_, ?_⟩
        · rw [hkeys, List.nodup_append]
          refine ⟨hnd, List.nodup_singleton _, ?_⟩
          intro a ha hb
          rcases List.mem_singleton.mp hb with rfl
          exact hnotkeys ha
        · intro k
          rw [hkeys]
          simp only [List.mem_append, List.mem_singleton]
          constructor
          · rintro (hk | hk)
            · exact Or.inl ((hiff k).mp hk)
            · exact Or.inr hk
          · rintro (hk | hk)
            · exact Or.inl ((hiff k).mpr hk)
            · exact Or.inr hk
        · rw [hkeys]
          simp only [List.map_append]
          rw [htr]
          rfl
        · rw [htexts]
          exact hjoin
        · rw [htexts]
          exact hlen
        · intro k hk
          exact List.mem_append.mpr (Or.inl hk)
        · intro r hr
          simp only [reqsOfToolCall, if_neg hn, List.mem_singleton] at hr
          subst hr
          exact List.mem_append.mpr (Or.inr (List.mem_singleton.mpr rfl))

theorem emitChars_spec (cs : List Char) :
    ∀ st : GenState, GenStateInvariant st →
      GenStateInvariant (emitChars st cs) ∧
      (emitChars st cs).seen_tool_calls = st.seen_tool_calls ∧
      (emitChars st cs).tool_calls_tracked = st.tool_calls_tracked := by
  induction cs with
  | nil => intro st h; exact ⟨h, rfl, rfl⟩
  | cons c rest ih =>
    intro st h
    obtain ⟨hnd, hiff, htr, hjoin, hlen⟩ := h
    have hkeys : toolKeysOf (st.events ++ [StreamEvent.text (String.singleton c)]) =
        toolKeysOf st.events := by
      rw [toolKeysOf_append]; simp [toolKeysOf]
    have htexts : textContentsOf (st.events ++ [StreamEvent.text (String.singleton c)]) =
        textContentsOf st.events ++ [String.singleton c] := by
      rw [textContentsOf_append]; rfl
    have h' : GenStateInvariant { st with
        full_response := st.full_response.push c,
        events := st.events ++ [StreamEvent.text (String.singleton c)] } := by
      refine ⟨?_, ?_, ?_, ?_, ?_⟩
      · rw [hkeys]; exact hnd
      · intro k; rw [hkeys]; exact hiff k
      · rw [hkeys]; exact htr
      · rw [htexts, join_concat, hjoin]
        rfl
      · rw [htexts]
        intro s hs
        rcases List.mem_append.mp hs with hs | hs
        · exact hlen s hs
        · rcases List.mem_singleton.mp hs with rfl
          rfl
    obtain ⟨h2, hseen2, htr2⟩ := ih _ h'
    exact ⟨h2, hseen2, htr2⟩

/-- Generic fold lemma: a step that preserves the generator invariant,
only grows the deduplication set and covers its own requests, folds to the
same over a list. -/
theorem foldl_step_spec {α : Type}
    (step : GenState → α → GenState) (reqs : α → List (String × Args))
    (hstep : ∀ st a, GenStateInvariant st →
      GenStateInvariant (step st a) ∧
      (∀ k ∈ st.seen_tool_calls, k ∈ (step st a).seen_tool_calls) ∧
      (∀ r ∈ reqs a, get_tool_call_key r.1 r.2 ∈ (step st a).seen_tool_calls))
    (l : List α) :
    ∀ st, GenStateInvariant st →
      GenStateInvariant (l.foldl step st) ∧
      (∀ k ∈ st.seen_tool_calls, k ∈ (l.foldl step st).seen_tool_calls) ∧
      (∀ r ∈ l.flatMap reqs, get_tool_call_key r.1 r.2 ∈
        (l.foldl step st).seen_tool_calls) := by
  induction l with
  | nil =>
    intro st h
    refine ⟨h, fun k hk => hk, ?_⟩
    intro r hr
    simp at hr
  | cons a rest ih =>
    intro st h
    obtain ⟨h1, hm1, hc1⟩ := hstep st a h
    obtain ⟨h2, hm2, hc2⟩ := ih (step st a) h1
    refine ⟨h2, fun k hk => hm2 k (hm1 k hk), ?_⟩
    intro r hr
    rw [List.flatMap_cons, List.mem_append] at hr
    rcases hr with hr | hr
    · exact hm2 _ (hc1 r hr)
    · exact hc2 r hr

theorem foldl_handleToolCall_spec (sid mid : String) (tcs : List ToolCallReq)
    (st : GenState) (h : GenStateInvariant st) :
    GenStateInvariant (tcs.foldl
      (fun s tc => handleToolCall sid mid s tc.name tc.args) st) ∧
    (∀ k ∈ st.seen_tool_calls, k ∈ (tcs.foldl
      (fun s tc => handleToolCall sid mid s tc.name tc.args) st).seen_tool_calls) ∧
    (∀ r ∈ tcs.flatMap reqsOfToolCall, get_tool_call_key r.1 r.2 ∈ (tcs.foldl
      (fun s tc => handleToolCall sid mid s tc.name tc.args) st).seen_tool_calls) :=
  foldl_step_spec (fun s tc => handleToolCall sid mid s tc.name tc.args)
    reqsOfToolCall
    (fun st tc h => handleToolCall_spec sid mid st tc.name tc.args h) tcs st h

theorem processContentBlocks_spec (sid mid : String) (items : List ContentBlock) :
    ∀ st tc, GenStateInvariant st →
      GenStateInvariant (processContentBlocks sid mid st tc items).1 ∧
      (∀ k ∈ st.seen_tool_calls,
        k ∈ (processContentBlocks sid mid st tc items).1.seen_tool_calls) ∧
      (∀ r ∈ reqsOfBlocks items, get_tool_call_key r.1 r.2 ∈
        (processContentBlocks sid mid st tc items).1.seen_tool_calls) := by
  induction items with
  | nil =>
    intro st tc h
    refine ⟨h, fun k hk => hk, ?_⟩
    intro r hr
    simp [reqsOfBlocks] at hr
  | cons b rest ih =>
    intro st tc h
    cases b with
    | text t =>
      obtain ⟨h2, hm2, hc2⟩ := ih st (tc ++ t) h
      refine ⟨h2, hm2, ?_⟩
      intro r hr
      refine hc2 r ?_
      simpa [reqsOfBlocks] using hr
    | toolUse nm input =>
      obtain ⟨h1, hm1, hc1⟩ := handleToolCall_spec sid mid st nm input h
      obtain ⟨h2, hm2, hc2⟩ :=
        ih (handleToolCall sid mid st nm input) tc h1
      refine ⟨h2, fun k hk => hm2 k (hm1 k hk), ?_⟩
      intro r hr
      rw [reqsOfBlocks, List.flatMap_cons, List.mem_append] at hr
      rcases hr with hr | hr
      · exact hm2 _ (hc1 r hr)
      · exact hc2 r hr
    | other =>
      obtain ⟨h2, hm2, hc2⟩ := ih st tc h
      refine ⟨h2, hm2, ?_⟩
      intro r hr
      refine hc2 r ?_
      simpa [reqsOfBlocks] using hr

theorem processAgentMessage_spec (sid mid : String) (st : GenState) (m : AIMsg)
    (h : GenStateInvariant st) :
    GenStateInvariant (processAgentMessage sid mid st m) ∧
    (∀ k ∈ st.seen_tool_calls,
      k ∈ (processAgentMessage sid mid st m).seen_tool_calls) ∧
    (∀ r ∈ reqsOfAgentMessage m, get_tool_call_key r.1 r.2 ∈
      (processAgentMessage sid mid st m).seen_tool_calls) := by
  obtain ⟨h1, hm1, hc1⟩ := foldl_handleToolCall_spec sid mid m.tool_calls st h
  cases hc : m.content with
  | str s =>
    have hsplit : ∀ st2 : GenState, GenStateInvariant st2 →
        (∀ k ∈ st2.seen_tool_calls,
          k ∈ (processAgentMessage sid mid st m).seen_tool_calls) →
        False ∨ True := fun _ _ _ => Or.inr trivial
    simp only [processAgentMessage, hc]
    by_cases hs : s ≠ ""
    · rw [if_pos hs]
      obtain ⟨h2, hseen2, htr2⟩ := emitChars_spec _ _ h1
      refine ⟨h2, ?_, ?_⟩
      · intro k hk
        rw [hseen2]
        exact hm1 k hk
      · intro r hr
        rw [hseen2]
        refine hc1 r ?_
        simpa [reqsOfAgentMessage, hc] using hr
    · rw [if_neg hs]
      refine ⟨h1, hm1, ?_⟩
      intro r hr
      refine hc1 r ?_
      simpa [reqsOfAgentMessage, hc] using hr
  | blocks items =>
    obtain ⟨h2, hm2, hc2⟩ := processContentBlocks_spec sid mid items
      (m.tool_calls.foldl
        (fun s tc => handleToolCall sid mid s tc.name tc.args) st) "" h1
    simp only [processAgentMessage, hc]
    by_cases ht : (processContentBlocks sid mid
        (m.tool_calls.foldl
          (fun s tc => handleToolCall sid mid s tc.name tc.args) st) "" items).2 ≠ ""
    · rw [if_pos ht]
      obtain ⟨h3, hseen3, htr3⟩ := emitChars_spec _ _ h2
      refine ⟨h3, ?_, ?_⟩
      · intro k hk
        rw [hseen3]
        exact hm2 k (hm1 k hk)
      · intro r hr
        rw [hseen3]
        rw [reqsOfAgentMessage, hc, List.mem_append] at hr
        rcases hr with hr | hr
        · exact hm2 _ (hc1 r hr)
        · exact hc2 r hr
    · rw [if_neg ht]
      refine ⟨h2, fun k hk => hm2 k (hm1 k hk), ?_⟩
      intro r hr
      rw [reqsOfAgentMessage, hc, List.mem_append] at hr
      rcases hr with hr | hr
      · exact hm2 _ (hc1 r hr)
      · exact hc2 r hr

theorem processFallbackMsg_spec (sid mid : String) (st : GenState)
    (msg : StreamMsg) (h : GenStateInvariant st) :
    GenStateInvariant (processFallbackMsg sid mid st msg) ∧
    (∀ k ∈ st.seen_tool_calls,
      k ∈ (processFallbackMsg sid mid st msg).seen_tool_calls) ∧
    (∀ r ∈ reqsOfFallbackMsg msg, get_tool_call_key r.1 r.2 ∈
      (processFallbackMsg sid mid st msg).seen_tool_calls) := by
  cases msg with
  | nonAI =>
    refine ⟨h, fun k hk => hk, ?_⟩
    intro r hr
    simp [reqsOfFallbackMsg] at hr
  | ai m =>
    simp only [processFallbackMsg]
    by_cases htc : m.tool_calls ≠ []
    · rw [if_pos htc]
      obtain ⟨h1, hm1, hc1⟩ := foldl_handleToolCall_spec sid mid m.tool_calls st h
      exact ⟨h1, hm1, fun r hr => hc1 r hr⟩
    · rw [if_neg htc]
      push_neg at htc
      obtain ⟨h1, hseen1, htr1⟩ :=
        emitChars_spec (textOfContent m.content).toList st h
      obtain ⟨h2, hm2, hc2⟩ := foldl_handleToolCall_spec sid mid m.tool_calls
        (emitChars st (textOfContent m.content).toList) h1
      refine ⟨h2, ?_, ?_⟩
      · intro k hk
        refine hm2 k ?_
        rw [hseen1]
        exact hk
      · intro r hr
        rw [reqsOfFallbackMsg] at hr
        exact hc2 r hr

theorem processNode_spec (sid mid : String) (st : GenState)
    (node : String × NodeOutput) (h : GenStateInvariant st) :
    GenStateInvariant (processNode sid mid st node) ∧
    (∀ k ∈ st.seen_tool_calls,
      k ∈ (processNode sid mid st node).seen_tool_calls) ∧
    (∀ r ∈ reqsOfNode node, get_tool_call_key r.1 r.2 ∈
      (processNode sid mid st node).seen_tool_calls) := by
  rcases node with ⟨node_name, node_output⟩
  by_cases hname : node_name = "agent"
  · simp only [processNode, reqsOfNode, hname, if_true]
    cases hms : agentMessageOf node_output with
    | none =>
      refine ⟨h, fun k hk => hk, ?_⟩
      intro r hr
      simp at hr
    | some m =>
      exact processAgentMessage_spec sid mid st m h
  · by_cases htools : node_name = "tools"
    · simp only [processNode, reqsOfNode, hname, htools, if_false, if_true]
      refine ⟨h, fun k hk => hk, ?_⟩
      intro r hr
      simp at hr
    · simp only [processNode, reqsOfNode, hname, htools, if_false]
      cases node_output with
      | msgList msgs =>
        exact foldl_step_spec (processFallbackMsg sid mid) reqsOfFallbackMsg
          (fun st' msg' h' => processFallbackMsg_spec sid mid st' msg' h')
          msgs st h
      | msgsDict msgs =>
        refine ⟨h, fun k hk => hk, ?_⟩
        intro r hr
        simp at hr
      | aiMsg m =>
        refine ⟨h, fun k hk => hk, ?_⟩
        intro r hr
        simp at hr
      | otherOutput =>
        refine ⟨h, fun k hk => hk, ?_⟩
        intro r hr
        simp at hr

theorem consumeStream_spec (sid mid : String) (items : List AgentEvent)
    (st : GenState) (h : GenStateInvariant st) :
    GenStateInvariant (consumeStream sid mid items st) ∧
    (∀ k ∈ st.seen_tool_calls,
      k ∈ (consumeStream sid mid items st).seen_tool_calls) ∧
    (∀ r ∈ requestsOfTurn items, get_tool_call_key r.1 r.2 ∈
      (consumeStream sid mid items st).seen_tool_calls) := by
  unfold consumeStream requestsOfTurn
  exact foldl_step_spec (fun s ev => ev.foldl (processNode sid mid) s)
    (fun ev => ev.flatMap reqsOfNode)
    (fun st' ev h' =>
      foldl_step_spec (processNode sid mid) reqsOfNode
        (fun st'' node h'' => processNode_spec sid mid st'' node h'')
        ev st' h')
    items st h

theorem initialGenState_invariant : GenStateInvariant initialGenState := by
  refine ⟨?_, ?_, ?_, ?_, ?_⟩
  · simp [initialGenState, toolKeysOf]
  · intro k
    simp [initialGenState, toolKeysOf]
  · simp [initialGenState, toolKeysOf]
  · rfl
  · intro c hc
    simp [initialGenState, textContentsOf] at hc

theorem countP_isToolCallWithKey (k : String) (events : List StreamEvent) :
    events.countP (isToolCallWithKey k) = (toolKeysOf events).count k := by
  induction events with
  | nil => rfl
  | cons e rest ih =>
    cases e with
    | toolCall nm args =>
      simp only [List.countP_cons, toolKeysOf, List.filterMap_cons] at *
      simp only [isToolCallWithKey, List.count_cons, ih]
    | text c =>
      simp only [List.countP_cons, toolKeysOf, List.filterMap_cons] at *
      simp [isToolCallWithKey, ih]
    | done s =>
      simp only [List.countP_cons, toolKeysOf, List.filterMap_cons] at *
      simp [isToolCallWithKey, ih]

theorem countP_eq_count_map {α : Type} (f : α → String) (l : List α) (k : String) :
    l.countP (fun x => f x == k) = (l.map f).count k := by
  induction l with
  | nil => rfl
  | cons x rest ih =>
    simp [List.countP_cons, List.count_cons, ih]

theorem runGenerator_toolKeys (sid mid : String) (inp : TurnInput) :
    toolKeysOf (runGenerator sid mid inp).events =
      toolKeysOf (consumeStream sid mid inp.items initialGenState).events := by
  unfold runGenerator
  cases inp.exc with
  | none => rfl
  | some e =>
    rw [toolKeysOf_append]
    simp [toolKeysOf]

theorem runGenerator_tracked (sid mid : String) (inp : TurnInput) :
    (runGenerator sid mid inp).tool_calls_tracked =
      (consumeStream sid mid inp.items initialGenState).tool_calls_tracked := by
  unfold runGenerator
  cases inp.exc with
  | none => rfl
  | some e => rfl

theorem runGenerator_full_response (sid mid : String) (inp : TurnInput) :
    (runGenerator sid mid inp).full_response =
      (consumeStream sid mid inp.items initialGenState).full_response := by
  unfold runGenerator
  cases inp.exc with
  | none => rfl
  | some e => rfl

/-- C4: within a single streaming turn, every tool-call request occurring in
the agent stream (in any of the three wire formats) with a given name and
canonicalized arguments yields exactly one emitted `tool_call` event and
exactly one tracked `ToolCallEvent`; repeats of the same key are skipped. -/
theorem tool_call_dedup_spec (sid mid : String) (inp : TurnInput)
    (nm : String) (args : Args) (h : (nm, args) ∈ requestsOfTurn inp.items) :
    ((runGenerator sid mid inp).events.countP
      (isToolCallWithKey (get_tool_call_key nm args))) = 1 ∧
    ((runGenerator sid mid inp).tool_calls_tracked.countP
      (fun ev => trackedKey ev == get_tool_call_key nm args)) = 1 := by
  obtain ⟨hinv, hmono, hcov⟩ := consumeStream_spec sid mid inp.items
    initialGenState initialGenState_invariant
  obtain ⟨hnd, hiff, htr, hjoin, hlen⟩ := hinv
  have hkmem : get_tool_call_key nm args ∈
      toolKeysOf (consumeStream sid mid inp.items initialGenState).events :=
    (hiff _).mp (hcov (nm, args) h)
  have hcount : (toolKeysOf (consumeStream sid mid inp.items
      initialGenState).events).count (get_tool_call_key nm args) = 1 :=
    List.count_eq_one_of_mem hnd hkmem
  constructor
  · rw [countP_isToolCallWithKey, runGenerator_toolKeys, hcount]
  · rw [countP_eq_count_map trackedKey, runGenerator_tracked, htr, hcount]

/-- Witness for C4: a stream that repeats one identical tool call in two
wire formats still produces a single emitted event and a single log entry. -/
theorem tool_call_dedup_spec_witness :
    ((runGenerator "s" "m"
      { items := [[("agent", NodeOutput.aiMsg
          { content := AIContent.blocks
              [ContentBlock.toolUse (some "t") [("a", "1")]],
            tool_calls := [{ name := some "t", args := [("a", "1")] },
                           { name := some "t", args := [("a", "1")] }] })]],
        exc := none }).events.countP
      (isToolCallWithKey (get_tool_call_key "t" [("a", "1")]))) = 1 :=
  (tool_call_dedup_spec "s" "m"
    { items := [[("agent", NodeOutput.aiMsg
        { content := AIContent.blocks
            [ContentBlock.toolUse (some "t") [("a", "1")]],
          tool_calls := [{ name := some "t", args := [("a", "1")] },
                         { name := some "t", args := [("a", "1")] }] })]],
      exc := none } "t" [("a", "1")] (by decide)).1

theorem getLast?_append_singleton {α : Type} (l : List α) (a : α) :
    (l ++ [a]).getLast? = some a :=
  List.getLast?_concat _

theorem storeLookup_insert (store : SessionStore) (sid : String)
    (msgs : List Message) :
    storeLookup (storeInsert store sid msgs) sid = some msgs := by
  induction store with
  | nil => simp [storeInsert, storeLookup]
  | cons p rest ih =>
    by_cases h : p.1 = sid
    · simp [storeInsert, storeLookup, h]
    · simp [storeInsert, storeLookup, h, ih]

/-- C5: when the agent stream raises after some events, the streamed prefix
is retained, the exception is surfaced as an error text event, the turn is
still recorded via `log_response` with the accumulated text and tracked tool
calls, the accumulated text is appended to the session, and the stream still
terminates with a `done` event. -/
theorem stream_error_spec (store : SessionStore) (logger : AgentLogger)
    (request : ChatRequest) (fresh_id message_id : String)
    (items : List AgentEvent) (e : String) (now rt : ℚ) :
    (chat_stream_turn store logger request fresh_id message_id
        { items := items, exc := some e } now rt).events =
      (consumeStream (request.session_id.getD fresh_id) message_id items
        initialGenState).events ++
      [StreamEvent.text ("Error: " ++ e),
       StreamEvent.done (request.session_id.getD fresh_id)] ∧
    (chat_stream_turn store logger request fresh_id message_id
        { items := items, exc := some e } now rt).events.getLast? =
      some (StreamEvent.done (request.session_id.getD fresh_id)) ∧
    (∃ ev, (chat_stream_turn store logger request fresh_id message_id
        { items := items, exc := some e } now rt).logger.events =
        logger.events ++ [ev] ∧
      ev.agent_response = (consumeStream (request.session_id.getD fresh_id)
        message_id items initialGenState).full_response ∧
      ev.tool_calls = (consumeStream (request.session_id.getD fresh_id)
        message_id items initialGenState).tool_calls_tracked) ∧
    storeLookup (chat_stream_turn store logger request fresh_id message_id
        { items := items, exc := some e } now rt).store
        (request.session_id.getD fresh_id) =
      some (truncate_session_messages
        ((storeLookup store (request.session_id.getD fresh_id)).getD
          [systemPrimerMessage] ++
          [{ role := "user", content := request.message }]) ++
        [{ role := "assistant",
           content := (consumeStream (request.session_id.getD fresh_id)
             message_id items initialGenState).full_response }]) := by
  have hev : (chat_stream_turn store logger request fresh_id message_id
      { items := items, exc := some e } now rt).events =
      (consumeStream (request.session_id.getD fresh_id) message_id items
        initialGenState).events ++
      [StreamEvent.text ("Error: " ++ e),
       StreamEvent.done (request.session_id.getD fresh_id)] := by
    show (runGenerator (request.session_id.getD fresh_id) message_id
        { items := items, exc := some e }).events ++
      [StreamEvent.done (request.session_id.getD fresh_id)] = _
    unfold runGenerator
    simp [List.append_assoc]
  refine ⟨hev, ?_, ?_, ?_⟩
  · rw [hev]
    rw [show (consumeStream (request.session_id.getD fresh_id) message_id items
        initialGenState).events ++
        [StreamEvent.text ("Error: " ++ e),
         StreamEvent.done (request.session_id.getD fresh_id)] =
        ((consumeStream (request.session_id.getD fresh_id) message_id items
          initialGenState).events ++ [StreamEvent.text ("Error: " ++ e)]) ++
        [StreamEvent.done (request.session_id.getD fresh_id)] by
      simp [List.append_assoc]]
    exact getLast?_append_singleton _ _
  · exact ⟨_, rfl, rfl, rfl⟩
  · exact storeLookup_insert store (request.session_id.getD fresh_id) _

theorem mem_textContentsOf (events : List StreamEvent) (c : String)
    (h : StreamEvent.text c ∈ events) : c ∈ textContentsOf events :=
  List.mem_filterMap.mpr ⟨StreamEvent.text c, h, rfl⟩

/-- C8 counterexample: the claim that every `text` event carries exactly one
character fails on the error path, where the exception message is emitted as
one multi-character `text` event. -/
theorem single_char_text_counterexample :
    StreamEvent.text "Error: boom" ∈
      (chat_stream_turn emptyStore initialLogger { message := "hi" } "s1" "m1"
        { items := [], exc := some "boom" } 0 0).events ∧
    ¬ ("Error: boom" : String).length = 1 := by
  constructor
  · decide
  · decide

/-- C8 (amended): in a streaming turn whose agent stream raises no
exception, every emitted `text` event carries exactly one character; and the
assistant message appended to the session equals the concatenation, in
emission order, of the emitted text contents, which is the accumulated
`full_response`. -/
theorem single_char_text_spec (store : SessionStore) (logger : AgentLogger)
    (request : ChatRequest) (fresh_id message_id : String)
    (items : List AgentEvent) (now rt : ℚ) :
    (∀ c, StreamEvent.text c ∈ (chat_stream_turn store logger request fresh_id
        message_id { items := items, exc := none } now rt).events →
      c.length = 1) ∧
    storeLookup (chat_stream_turn store logger request fresh_id message_id
        { items := items, exc := none } now rt).store
        (request.session_id.getD fresh_id) =
      some (truncate_session_messages
        ((storeLookup store (request.session_id.getD fresh_id)).getD
          [systemPrimerMessage] ++
          [{ role := "user", content := request.message }]) ++
        [{ role := "assistant",
           content := String.join (textContentsOf
             (chat_stream_turn store logger request fresh_id message_id
               { items := items, exc := none } now rt).events) }]) := by
  obtain ⟨hinv, hmono, hcov⟩ := consumeStream_spec
    (request.session_id.getD fresh_id) message_id items
    initialGenState initialGenState_invariant
  obtain ⟨hnd, hiff, htr, hjoin, hlen⟩ := hinv
  have hevents : (chat_stream_turn store logger request fresh_id message_id
      { items := items, exc := none } now rt).events =
      (consumeStream (request.session_id.getD fresh_id) message_id items
        initialGenState).events ++
      [StreamEvent.done (request.session_id.getD fresh_id)] := rfl
  constructor
  · intro c hc
    rw [hevents] at hc
    rcases List.mem_append.mp hc with hc | hc
    · exact hlen c (mem_textContentsOf _ c hc)
    · rcases List.mem_singleton.mp hc with hc
      cases hc
  · have htext : textContentsOf (chat_stream_turn store logger request fresh_id
        message_id { items := items, exc := none } now rt).events =
        textContentsOf (consumeStream (request.session_id.getD fresh_id)
          message_id items initialGenState).events := by
      rw [hevents, textContentsOf_append]
      simp [textContentsOf]
    rw [htext, hjoin]
    exact storeLookup_insert store (request.session_id.getD fresh_id) _

/-- Witness for C8 (amended): a turn streaming the text `hi` emits only
single-character text events. -/
theorem single_char_text_spec_witness :
    ("h" : String).length = 1 :=
  (single_char_text_spec emptyStore initialLogger { message := "q" } "s" "m"
    [[("agent", NodeOutput.aiMsg
      { content := AIContent.str "hi", tool_calls := [] })]] 0 0).1 "h"
    (by decide)

theorem turnLoop_rounds (model : List Message → ModelResponse)
    (exec_tool : String → Args → String)
    (h : ∀ hist, (model hist).tool_calls ≠ []) :
    ∀ fuel hist acc events,
      (turnLoop model exec_tool fuel hist acc events).2.1 = fuel := by
  intro fuel
  induction fuel with
  | zero => intro hist acc events; rfl
  | succ n ih =>
    intro hist acc events
    show (turnLoop model exec_tool (n + 1) hist acc events).2.1 = n + 1
    rw [turnLoop]
    rw [if_neg (h hist)]
    simp only []
    rw [ih]

/-- C1: a model whose every response contains a tool call drives the capped
streaming turn loop to terminate after exactly 10 model-call/tool-execution
rounds, and the turn still ends with a terminal `done` event rather than an
unbounded stream. -/
theorem iteration_cap_spec (model : List Message → ModelResponse)
    (exec_tool : String → Args → String) (history : List Message)
    (session_id : String) (h : ∀ hist, (model hist).tool_calls ≠ []) :
    (run_stream_turn model exec_tool history session_id).rounds = 10 ∧
    (run_stream_turn model exec_tool history session_id).events.getLast? =
      some (StreamEvent.done session_id) := by
  constructor
  · show (turnLoop model exec_tool ITERATION_CAP history "" []).2.1 = 10
    rw [turnLoop_rounds model exec_tool h]
    rfl
  · exact getLast?_append_singleton _ _

/-- Witness for C1: a concrete always-tool-calling model uses exactly 10
rounds. -/
theorem iteration_cap_spec_witness :
    (run_stream_turn (fun _ => { text := "", tool_calls := [("t", [])] })
      (fun _ _ => "ok") [] "s").rounds = 10 :=
  (iteration_cap_spec (fun _ => { text := "", tool_calls := [("t", [])] })
    (fun _ _ => "ok") [] "s" (fun _ => by simp)).1

theorem head?_append_left {α : Type} (l l' : List α) (a : α)
    (h : l.head? = some a) : (l ++ l').head? = some a := by
  cases l with
  | nil => simp at h
  | cons x rest => simpa using h

theorem mem_storeInsert (store : SessionStore) (sid : String)
    (msgs : List Message) :
    ∀ q ∈ storeInsert store sid msgs, q ∈ store ∨ q = (sid, msgs) := by
  induction store with
  | nil =>
    intro q hq
    simp only [storeInsert, List.mem_singleton] at hq
    exact Or.inr hq
  | cons p rest ih =>
    intro q hq
    by_cases h : p.1 = sid
    · rw [storeInsert, if_pos h] at hq
      rcases List.mem_cons.mp hq with hq | hq
      · exact Or.inr hq
      · exact Or.inl (List.mem_cons_of_mem _ hq)
    · rw [storeInsert, if_neg h] at hq
      rcases List.mem_cons.mp hq with hq | hq
      · exact Or.inl (by rw [hq]; exact List.mem_cons_self _ _)
      · rcases ih q hq with h1 | h1
        · exact Or.inl (List.mem_cons_of_mem _ h1)
        · exact Or.inr h1

theorem storeLookup_mem (store : SessionStore) (sid : String)
    (msgs : List Message) (h : storeLookup store sid = some msgs) :
    (sid, msgs) ∈ store := by
  induction store with
  | nil => simp [storeLookup] at h
  | cons p rest ih =>
    cases p with
    | mk k v =>
      by_cases hk : k = sid
      · simp only [storeLookup, hk, if_true, Option.some.injEq] at h
        subst hk
        subst h
        exact List.mem_cons_self _ _
      · simp only [storeLookup, hk, if_false] at h
        exact List.mem_cons_of_mem _ (ih h)

theorem session_base_head (store : SessionStore) (sid : String)
    (h : SessionPrimerInvariant store) :
    ((storeLookup store sid).getD [systemPrimerMessage]).head? =
      some systemPrimerMessage := by
  cases hlk : storeLookup store sid with
  | none => rfl
  | some msgs =>
    simp only [Option.getD_some]
    exact h (sid, msgs) (storeLookup_mem store sid msgs hlk)

theorem turn_messages_head (store : SessionStore) (sid : String)
    (user_content assistant_content : String)
    (h : SessionPrimerInvariant store) :
    (truncate_session_messages
      ((storeLookup store sid).getD [systemPrimerMessage] ++
        [({ role := "user", content := user_content } : Message)]) ++
      [({ role := "assistant", content := assistant_content } : Message)]).head? =
      some systemPrimerMessage := by
  have h0 := session_base_head store sid h
  have h1 : ((storeLookup store sid).getD [systemPrimerMessage] ++
      [({ role := "user", content := user_content } : Message)]).head? =
      some systemPrimerMessage :=
    head?_append_left _ _ _ h0
  have h2 : (truncate_session_messages
      ((storeLookup store sid).getD [systemPrimerMessage] ++
        [({ role := "user", content := user_content } : Message)])).head? =
      some systemPrimerMessage :=
    truncateWith_head_system _ (by decide) _ _ h1 rfl
  exact head?_append_left _ _ _ h2

theorem chat_preserves_primer (store : SessionStore) (request : ChatRequest)
    (fresh_id : String) (agent_result : List StreamMsg)
    (h : SessionPrimerInvariant store) :
    SessionPrimerInvariant (chat store request fresh_id agent_result).1 := by
  intro q hq
  rcases mem_storeInsert store (request.session_id.getD fresh_id) _ q hq with
    hq | hq
  · exact h q hq
  · rw [hq]
    exact turn_messages_head store (request.session_id.getD fresh_id) _ _ h

theorem chat_stream_preserves_primer (store : SessionStore)
    (logger : AgentLogger) (request : ChatRequest)
    (fresh_id message_id : String) (inp : TurnInput) (now rt : ℚ)
    (h : SessionPrimerInvariant store) :
    SessionPrimerInvariant (chat_stream_turn store logger request fresh_id
      message_id inp now rt).store := by
  intro q hq
  rcases mem_storeInsert store (request.session_id.getD fresh_id) _ q hq with
    hq | hq
  · exact h q hq
  · rw [hq]
    exact turn_messages_head store (request.session_id.getD fresh_id) _ _ h

theorem delete_preserves_primer (store : SessionStore) (sid : String)
    (h : SessionPrimerInvariant store) :
    SessionPrimerInvariant (storeDelete store sid) := by
  intro q hq
  exact h q (List.mem_of_mem_filter hq)

/-- C10: the history of every stored session starts with the system primer
message: the invariant holds after any sequence of server operations from
process start, and each single operation preserves it. -/
theorem session_primer_spec :
    (∀ ops : List ServerOp, SessionPrimerInvariant (runServerOps ops).1) ∧
    (∀ s op, SessionPrimerInvariant s.1 →
      SessionPrimerInvariant (applyServerOp s op).1) := by
  have hstep : ∀ (s : SessionStore × AgentLogger) (op : ServerOp),
      SessionPrimerInvariant s.1 →
      SessionPrimerInvariant (applyServerOp s op).1 := by
    intro s op h
    cases op with
    | chatOp request fresh_id agent_result =>
      exact chat_preserves_primer s.1 request fresh_id agent_result h
    | chatStreamOp request fresh_id message_id inp now rt =>
      exact chat_stream_preserves_primer s.1 s.2 request fresh_id message_id
        inp now rt h
    | deleteOp sid => exact delete_preserves_primer s.1 sid h
  refine ⟨?_, hstep⟩
  intro ops
  suffices hfold : ∀ s : SessionStore × AgentLogger, SessionPrimerInvariant s.1 →
      SessionPrimerInvariant (ops.foldl applyServerOp s).1 by
    refine hfold (emptyStore, initialLogger) ?_
    intro q hq
    simp [emptyStore] at hq
  induction ops with
  | nil => intro s h; exact h
  | cons op rest ih =>
    intro s h
    exact ih (applyServerOp s op) (hstep s op h)

/-- Witness for C10: after one concrete streaming turn on a fresh store the
invariant holds, applied through the preservation clause. -/
theorem session_primer_spec_witness :
    SessionPrimerInvariant
      (applyServerOp (emptyStore, initialLogger)
        (ServerOp.chatStreamOp { message := "hi" } "s" "m"
          { items := [] } 0 0)).1 :=
  session_primer_spec.2 (emptyStore, initialLogger)
    (ServerOp.chatStreamOp { message := "hi" } "s" "m" { items := [] } 0 0)
    (by intro q hq; simp [emptyStore] at hq)

end PmmAgent
